import Mathlib

/-!
Verification of the go-nitro peer-to-peer message service
(`node/engine/messageservice/p2p-message-service/service.go` and the
`protocols` message envelope), as a shallow embedding in Lean 4.

External effects (libp2p streams, the kademlia DHT, timers) are modelled
by explicit oracles describing the outcome of each call the Go code
makes; the control flow of the Go functions is translated line by line.
-/

namespace P2PMS

/-- A libp2p peer identifier (`peer.ID`), textual form. -/
abbrev PeerID := String

/-- A nitro state-channel ("business") address: `types.Address` is a
20-byte `common.Address`.  We model it as a list of bytes; where the Go
code uses its string form (`.String()`) as a map key we use the address
value itself, which is equivalent because `.String()` is injective. -/
abbrev Address := List (Fin 256)

/-- A Go `error` value, identified by its message. -/
inductive GoErr where
  | mk (msg : String)
deriving DecidableEq, Repr

/-- Modelled from the spec: the Directory (`ms.peers`, a
`safesync.Map[peer.ID]`; package `internal/safesync` is not under
`src/`).  Per spec §4.1 it is a concurrent-safe map from business
address to network identifier with `load` / `store` / `loadOrStore`
(i.e. Go `sync.Map`) semantics.  Modelled as an association list in
which the most recent binding for a key shadows older ones. -/
abbrev Directory := List (Address × PeerID)

/-- `Load`: the current binding of address `a`, if any. -/
def Directory.load (d : Directory) (a : Address) : Option PeerID :=
  match d with
  | [] => none
  | (k, v) :: rest => if k = a then some v else Directory.load rest a

/-- `Store`: bind `a` to `i`, shadowing any previous binding. -/
def Directory.store (d : Directory) (a : Address) (i : PeerID) : Directory :=
  (a, i) :: d

/-- `LoadOrStore`: return the existing binding and `true` when `a` is
already present; otherwise store `i` and return it with `false`
(Go `sync.Map.LoadOrStore` returns `(actual, loaded)`). -/
def Directory.loadOrStore (d : Directory) (a : Address) (i : PeerID) :
    (PeerID × Bool) × Directory :=
  match Directory.load d a with
  | some j => ((j, true), d)
  | none => ((i, false), (a, i) :: d)

/-- `peerExchangeMessage`: the wire record of the peer-exchange
handshake (service.go line 36). -/
structure PeerExchangeMessage where
  Id : PeerID
  Address : Address
  ExpectResponse : Bool
deriving DecidableEq, Repr

/-- `basicPeerInfo`: the "peer discovered" notification payload
(service.go line 31). -/
structure basicPeerInfo where
  Id : PeerID
  Address : Address
deriving DecidableEq, Repr

/-- `sendPeerInfo` (service.go line 271): the handshake message this
node writes to the freshly opened peer-exchange stream.  Stream-open or
write failures are logged and swallowed, so the observable effect is
exactly the message below (or nothing). -/
def sendPeerInfo (selfId : PeerID) (selfAddr : Address) (expectResponse : Bool) :
    PeerExchangeMessage :=
  { Id := selfId, Address := selfAddr, ExpectResponse := expectResponse }

/-- Outcome of reading one delimited record from the peer-exchange
stream in `receivePeerInfo`: end of stream, a read error, a JSON
unmarshal error, or a decoded message. -/
inductive ReadOutcome where
  | eof
  | readErr (e : GoErr)
  | unmarshalErr (e : GoErr)
  | ok (msg : PeerExchangeMessage)
deriving DecidableEq, Repr

/-- The observable effects of one `receivePeerInfo` invocation: the
updated Directory, the `basicPeerInfo` values pushed on `newPeerInfo`,
and the handshake replies sent (recipient paired with the reply
message). -/
structure ReceiveEffects where
  dir : Directory
  notifications : List basicPeerInfo
  replies : List (PeerID × PeerExchangeMessage)
deriving Repr

/-- `receivePeerInfo` (service.go line 300): on any read or unmarshal
failure return silently; otherwise `LoadOrStore` the sender's
(address, id) binding, emit a notification only when the address was
new, and reply with `sendPeerInfo(msg.Id, false)` only when the
incoming message has `ExpectResponse` set. -/
def receivePeerInfo (selfId : PeerID) (selfAddr : Address) (dir : Directory)
    (read : ReadOutcome) : ReceiveEffects :=
  match read with
  | .ok msg =>
    let res := Directory.loadOrStore dir msg.Address msg.Id
    let foundPeer := res.1.2
    { dir := res.2
      notifications := if foundPeer then [] else [⟨msg.Id, msg.Address⟩]
      replies := if msg.ExpectResponse
                 then [(msg.Id, sendPeerInfo selfId selfAddr false)]
                 else [] }
  | _ => { dir := dir, notifications := [], replies := [] }

/-- A sequence of inbound peer-exchange streams handled one after the
other (the `LoadOrStore` call is the atomic serialization point, so any
concurrent interleaving is equivalent to some such sequence): returns
the final Directory and all notifications emitted, in order. -/
def processPeerInfos (selfId : PeerID) (selfAddr : Address) (dir : Directory) :
    List ReadOutcome → Directory × List basicPeerInfo
  | [] => (dir, [])
  | r :: rest =>
    let e := receivePeerInfo selfId selfAddr dir r
    let res := processPeerInfos selfId selfAddr e.dir rest
    (res.1, e.notifications ++ res.2)

/-- A concrete 20-byte address used in concrete evaluations. -/
def addrA : Address := List.replicate 20 (0xAA : Fin 256)

/-- A second concrete 20-byte address, distinct from `addrA`. -/
def addrB : Address := List.replicate 20 (0xBB : Fin 256)

/-- `dhtData` (fields as constructed in `addScaddrDhtRecord`,
service.go line 205; the struct is declared in a repository file not
under `src/`): the signed payload of a DHT record. -/
structure DhtData where
  SCAddr : Address
  PeerID : String
  Timestamp : Int
deriving DecidableEq, Repr

/-- `dhtRecord` (as constructed in service.go line 220): the signed
payload together with its signature bytes. -/
structure DhtRecord where
  Data : DhtData
  Signature : String
deriving DecidableEq, Repr

/-- Outcome oracles for the three fallible steps of
`getPeerIdFromDht` (service.go line 336): `dht.GetValue` (keyed by
`DHT_RECORD_PREFIX + scaddr`, injective in the address),
`json.Unmarshal` of the record bytes, and `peer.Decode`. -/
structure DhtEnv where
  getValue : Address → Except GoErr String
  unmarshalRecord : String → Except GoErr DhtRecord
  decodePeerId : String → Except GoErr PeerID

/-- `getPeerIdFromDht` (service.go line 336): fetch and decode the DHT
record for `scaddr`; on success cache the identifier into the local
Directory (`ms.peers.Store`) and return it; any step's failure is
returned and leaves the Directory unchanged. -/
def getPeerIdFromDht (env : DhtEnv) (dir : Directory) (scaddr : Address) :
    Except GoErr PeerID × Directory :=
  match env.getValue scaddr with
  | .error e => (.error e, dir)
  | .ok recordBytes =>
    match env.unmarshalRecord recordBytes with
    | .error e => (.error e, dir)
    | .ok recordData =>
      match env.decodePeerId recordData.Data.PeerID with
      | .error e => (.error e, dir)
      | .ok peerId => (.ok peerId, Directory.store dir scaddr peerId)

/-- `NUM_CONNECT_ATTEMPTS` (service.go line 48). -/
def NUM_CONNECT_ATTEMPTS : Nat := 10

/-- Outcome oracles for one `Send` call: the result of
`msg.Serialize()`, the DHT oracles, and per-attempt outcomes of
`NewStream` and `WriteString` (`none` = Go `nil` error). -/
structure SendEnv where
  serialize : Except GoErr String
  dht : DhtEnv
  openStream : PeerID → Nat → Option GoErr
  write : PeerID → Nat → Option GoErr

/-- What the retry loop of `Send` did: its Go return value, how many
`NewStream` attempts and `time.Sleep` calls it made, and whether the
payload was actually written and flushed to a stream. -/
structure AttemptsResult where
  result : Option GoErr
  opens : Nat
  sleeps : Nat
  delivered : Bool
deriving DecidableEq, Repr

/-- The retry loop of `Send` (service.go lines 378–395), starting at
attempt index `i` with the given number of attempts remaining.  A
successful open is followed by one write: a write error is returned at
once; a write success returns `nil` with the payload delivered.  A
failed open logs, sleeps, and moves to the next attempt.  When the
attempts are exhausted the loop falls through to `return nil`. -/
def sendAttempts (env : SendEnv) (peerId : PeerID) (i : Nat) : Nat → AttemptsResult
  | 0 => { result := none, opens := 0, sleeps := 0, delivered := false }
  | r + 1 =>
    match env.openStream peerId i with
    | none =>
      match env.write peerId i with
      | some e => { result := some e, opens := 1, sleeps := 0, delivered := false }
      | none => { result := none, opens := 1, sleeps := 0, delivered := true }
    | some _ =>
      let rest := sendAttempts env peerId (i + 1) r
      { result := rest.result, opens := rest.opens + 1, sleeps := rest.sleeps + 1
        delivered := rest.delivered }

/-- Observable resolution behaviour of one `Send` call. -/
structure SendTrace where
  dhtQueried : Bool
  resolved : Option PeerID
  opens : Nat
  sleeps : Nat
  delivered : Bool
deriving DecidableEq, Repr

/-- `Send` (service.go line 362): serialize; resolve the destination
via the local Directory, falling back to `getPeerIdFromDht` (which
caches) on a miss; propagate resolution errors; then run the retry
loop. -/
def send (env : SendEnv) (dir : Directory) (dst : Address) :
    Option GoErr × Directory × SendTrace :=
  match env.serialize with
  | .error e => (some e, dir,
      { dhtQueried := false, resolved := none, opens := 0, sleeps := 0, delivered := false })
  | .ok _raw =>
    match Directory.load dir dst with
    | some peerId =>
      let r := sendAttempts env peerId 0 NUM_CONNECT_ATTEMPTS
      (r.result, dir,
        { dhtQueried := false, resolved := some peerId, opens := r.opens, sleeps := r.sleeps
          delivered := r.delivered })
    | none =>
      match getPeerIdFromDht env.dht dir dst with
      | (.error e, dir2) => (some e, dir2,
          { dhtQueried := true, resolved := none, opens := 0, sleeps := 0, delivered := false })
      | (.ok peerId, dir2) =>
        let r := sendAttempts env peerId 0 NUM_CONNECT_ATTEMPTS
        (r.result, dir2,
          { dhtQueried := true, resolved := some peerId, opens := r.opens, sleeps := r.sleeps
            delivered := r.delivered })

/-- DHT oracles for environments that never consult the DHT. -/
def unusedDht : DhtEnv :=
  { getValue := fun _ => .error (.mk "routing: not found")
    unmarshalRecord := fun _ => .error (.mk "unused")
    decodePeerId := fun _ => .error (.mk "unused") }

/-- A `Send` environment in which every stream open fails. -/
def alwaysFailOpenEnv : SendEnv :=
  { serialize := .ok "raw"
    dht := unusedDht
    openStream := fun _ _ => some (.mk "failed to dial")
    write := fun _ _ => none }

/-- A `Send` environment in which every open succeeds and every write
fails. -/
def alwaysFailWriteEnv : SendEnv :=
  { serialize := .ok "raw"
    dht := unusedDht
    openStream := fun _ _ => none
    write := fun _ _ => some (.mk "write failed") }

/-- A `Send` environment whose DHT holds a record binding `addrA` to
peer `"P"`. -/
def dhtHitEnv : SendEnv :=
  { serialize := .ok "raw"
    dht := { getValue := fun _ => .ok "recbytes"
             unmarshalRecord := fun _ =>
               .ok { Data := { SCAddr := addrA, PeerID := "P", Timestamp := 0 }
                     Signature := "sig" }
             decodePeerId := fun _ => .ok "P" }
    openStream := fun _ _ => none
    write := fun _ _ => none }

/-- The observable steps of `setupDht` (service.go line 143), in
program order on the successful path. -/
inductive DhtSetupStep where
  | newDht
  | installConnectedCallback
  | addBootPeers (peers : List String)
  | quorumWait (expectedPeers : Nat)
  | publishOwnRecord
  | bootstrapDht
deriving DecidableEq, Repr

/-- `setupDht` (service.go line 143): build the DHT, install the
connection-lifecycle callbacks; only when the boot-peer list is
non-empty, dial the boot peers, block until the connection count
reaches the boot-peer count, and publish this node's record
(`addScaddrDhtRecord`); finally start the periodic bootstrap. -/
def setupDht (bootPeers : List String) : List DhtSetupStep :=
  [.newDht, .installConnectedCallback]
  ++ (if bootPeers.length > 0 then
        [.addBootPeers bootPeers, .quorumWait bootPeers.length, .publishOwnRecord]
      else [])
  ++ [.bootstrapDht]

/-- The DHT record published by `addScaddrDhtRecord`: its key (the
record namespace key is `DHT_RECORD_PREFIX + me.String()`, injective
in the address) and the signed record stored under it. -/
structure PublishedRecord where
  key : Address
  record : DhtRecord
deriving Repr

/-- `addScaddrDhtRecord` (service.go line 204): build
`dhtData{SCAddr: me, PeerID: Id(), Timestamp: now}`, sign its
serialization with the node key, wrap data and signature into a
`dhtRecord`, and put it under this node's namespace key. -/
def addScaddrDhtRecord (me : Address) (selfId : PeerID) (now : Int)
    (sign : String → String) (marshalData : DhtData → String) : PublishedRecord :=
  let recordData : DhtData := { SCAddr := me, PeerID := selfId, Timestamp := now }
  { key := me
    record := { Data := recordData, Signature := sign (marshalData recordData) } }

/-- Outcome oracles for the three fallible steps of `addBootPeer`
(service.go line 430): `multiaddr.NewMultiaddr`,
`peer.AddrInfoFromP2pAddr`, `host.Connect`. -/
structure BootPeerEnv where
  newMultiaddr : String → Option GoErr
  addrInfoFromP2pAddr : String → Except GoErr PeerID
  connect : PeerID → Option GoErr

/-- `addBootPeer` (service.go line 430): parse the multiaddr, extract
the peer info, connect; any failure is returned. -/
def addBootPeer (env : BootPeerEnv) (p : String) : Except GoErr PeerID :=
  match env.newMultiaddr p with
  | some e => .error e
  | none =>
    match env.addrInfoFromP2pAddr p with
    | .error e => .error e
    | .ok pid =>
      match env.connect pid with
      | some e => .error e
      | none => .ok pid

/-- `addBootPeers` (service.go line 421): dial each boot peer;
individual failures are logged, not fatal.  Yields the successfully
dialed peers. -/
def addBootPeers (env : BootPeerEnv) (peers : List String) : List PeerID :=
  peers.filterMap (fun p => (addBootPeer env p).toOption)

/-- Every successful `Connect` raises the `ConnectedF` notification
(service.go line 159), which runs `go sendPeerInfo(remote, false)`:
the handshakes triggered by dialing the boot peers. -/
def bootPeerHandshakes (selfId : PeerID) (selfAddr : Address) (env : BootPeerEnv)
    (peers : List String) : List (PeerID × PeerExchangeMessage) :=
  (addBootPeers env peers).map (fun remote => (remote, sendPeerInfo selfId selfAddr false))

/-- A boot-peer environment in which every dial succeeds and resolves
to peer `"B"`. -/
def oneBootPeerEnv : BootPeerEnv :=
  { newMultiaddr := fun _ => none
    addrInfoFromP2pAddr := fun _ => .ok "B"
    connect := fun _ => none }

/-- `peer.AddrInfo` as passed to `HandlePeerFound`: a peer id and its
multiaddrs. -/
structure AddrInfo where
  Id : PeerID
  Addrs : List String
deriving DecidableEq, Repr

/-- A Go runtime panic. -/
inductive GoPanic where
  | indexOutOfRange
deriving DecidableEq, Repr

/-- The effects of a non-panicking `HandlePeerFound`: the address
added to the peerstore and the handshake sent. -/
structure HandlePeerFoundEffects where
  addedAddr : PeerID × String
  handshake : PeerID × PeerExchangeMessage
deriving DecidableEq, Repr

/-- `HandlePeerFound` (service.go line 239): unconditionally indexes
`pi.Addrs[0]`; indexing an empty Go slice panics at runtime. -/
def HandlePeerFound (selfId : PeerID) (selfAddr : Address) (pi : AddrInfo) :
    Except GoPanic HandlePeerFoundEffects :=
  match pi.Addrs with
  | [] => .error .indexOutOfRange
  | a :: _ => .ok { addedAddr := (pi.Id, a)
                    handshake := (pi.Id, sendPeerInfo selfId selfAddr false) }

/- ## Serialization of the wire records (claim C9) -/

/-- `DELIMITER` (service.go line 46): the framing byte appended after
each serialized message. -/
def DELIMITER : Char := '\n'

/-- Value of a lowercase-hex digit character. -/
def hexDigitVal (c : Char) : Option Nat :=
  if 48 ≤ c.toNat ∧ c.toNat ≤ 57 then some (c.toNat - 48)
  else if 97 ≤ c.toNat ∧ c.toNat ≤ 102 then some (c.toNat - 87)
  else none

/-- The lowercase hex digit character for a nibble. -/
def hexDigitChar (k : Nat) : Char :=
  if k < 10 then Char.ofNat (48 + k) else Char.ofNat (87 + k)

/-- Four lowercase hex digits of `n < 0x10000`, as in Go `\u` escapes. -/
def hex4 (n : Nat) : List Char :=
  [hexDigitChar (n / 4096 % 16), hexDigitChar (n / 256 % 16),
   hexDigitChar (n / 16 % 16), hexDigitChar (n % 16)]

/-- One character of Go `encoding/json` string escaping (with the
default HTML escaping): quote, backslash, newline, carriage return and
tab get two-character escapes; other control characters, `<`, `>`, `&`,
U+2028 and U+2029 get `\u`-escapes; everything else passes through. -/
def escapeChar (c : Char) : List Char :=
  if c = '"' then ['\\', '"']
  else if c = '\\' then ['\\', '\\']
  else if c = '\n' then ['\\', 'n']
  else if c = '\r' then ['\\', 'r']
  else if c = '\t' then ['\\', 't']
  else if c.toNat < 32 ∨ c = '<' ∨ c = '>' ∨ c = '&' ∨ c.toNat = 8232 ∨ c.toNat = 8233 then
    '\\' :: ('u' :: hex4 c.toNat)
  else [c]

/-- Go `encoding/json` escaping of a whole string body. -/
def escapeString : List Char → List Char
  | [] => []
  | c :: rest => escapeChar c ++ escapeString rest

/-- Decode a JSON string body up to (and consuming) the closing quote:
the inverse of `escapeString`, i.e. Go `encoding/json` string
unescaping restricted to the escapes `json.Marshal` emits. -/
def parseStringBody : List Char → Option (List Char × List Char)
  | [] => none
  | c :: rest =>
    if c = '"' then some ([], rest)
    else if c = '\\' then
      match rest with
      | '"' :: r => (parseStringBody r).map (fun p => ('"' :: p.1, p.2))
      | '\\' :: r => (parseStringBody r).map (fun p => ('\\' :: p.1, p.2))
      | 'n' :: r => (parseStringBody r).map (fun p => ('\n' :: p.1, p.2))
      | 'r' :: r => (parseStringBody r).map (fun p => ('\r' :: p.1, p.2))
      | 't' :: r => (parseStringBody r).map (fun p => ('\t' :: p.1, p.2))
      | 'u' :: a :: b :: c2 :: d :: r =>
        match hexDigitVal a, hexDigitVal b, hexDigitVal c2, hexDigitVal d with
        | some x, some y, some z, some w =>
          (parseStringBody r).map
            (fun p => (Char.ofNat (((x * 16 + y) * 16 + z) * 16 + w) :: p.1, p.2))
        | _, _, _, _ => none
      | _ => none
    else (parseStringBody rest).map (fun p => (c :: p.1, p.2))

/-- Consume an expected literal. -/
def expects : List Char → List Char → Option (List Char)
  | [], l => some l
  | _ :: _, [] => none
  | e :: es, c :: l => if c = e then expects es l else none

/-- Two lowercase hex digits of a byte (Go `hexutil` encoding used by
`common.Address.MarshalText`). -/
def byteHex (b : Fin 256) : List Char :=
  [hexDigitChar (b.val / 16), hexDigitChar (b.val % 16)]

/-- Lowercase hex of an address' bytes. -/
def addrHex : Address → List Char
  | [] => []
  | b :: bs => byteHex b ++ addrHex bs

/-- Parse `n` hex-encoded bytes. -/
def parseHexBytes : Nat → List Char → Option (Address × List Char)
  | 0, l => some ([], l)
  | n + 1, c1 :: c2 :: l =>
    match hexDigitVal c1, hexDigitVal c2 with
    | some x, some y =>
      if h : x * 16 + y < 256 then
        (parseHexBytes n l).map (fun p => ((⟨x * 16 + y, h⟩ : Fin 256) :: p.1, p.2))
      else none
    | _, _ => none
  | _ + 1, [] => none
  | _ + 1, [_] => none

/-- A JSON string literal: quote, escaped body, closing quote. -/
def quoted (s : String) : List Char :=
  '"' :: (escapeString s.data ++ ['"'])

/-- The rendering of a JSON array after its first element: the closing
bracket, or a comma and the next element. -/
def encodeStrTail : List String → List Char
  | [] => [']']
  | s :: t => ',' :: (quoted s ++ encodeStrTail t)

/-- A JSON array of strings, as `json.Marshal` renders `[]string`. -/
def encodeStrArray : List String → List Char
  | [] => ['[', ']']
  | s :: t => '[' :: (quoted s ++ encodeStrTail t)

/-- Parse the elements of a non-empty JSON string array, positioned at
the start of an element; consumes the closing bracket.  The fuel bounds
the number of elements; callers pass the input length. -/
def parseStrElems : Nat → List Char → Option (List String × List Char)
  | 0, _ => none
  | f + 1, '"' :: l =>
    match parseStringBody l with
    | some (s, ',' :: r2) =>
      match parseStrElems f r2 with
      | some (xs, r3) => some (String.mk s :: xs, r3)
      | none => none
    | some (s, ']' :: r2) => some ([String.mk s], r2)
    | _ => none
  | _ + 1, _ => none

/-- Parse a JSON array of strings. -/
def parseStrArray : List Char → Option (List String × List Char)
  | '[' :: (']' :: l) => some ([], l)
  | '[' :: l => parseStrElems l.length l
  | _ => none

/-- Modelled from the spec: the `state.SignedState` payload carried in
a `protocols.Message` (package `channel/state` is not under `src/`) —
an opaque record of signed-state data (a state and its signatures),
JSON-marshalled field-wise as self-terminating text (spec section 3,
OutboundEnvelope). -/
structure SignedState where
  State : String
  Sigs : List String
deriving DecidableEq, Repr

/-- `json.Marshal` rendering of one signed state. -/
def encodeSignedState (ss : SignedState) : List Char :=
  "\x7b\"State\":\"".data
    ++ (escapeString ss.State.data
      ++ ('"' :: (",\"Sigs\":".data ++ (encodeStrArray ss.Sigs ++ ['\x7d']))))

/-- Parse one signed state. -/
def parseSignedState (l : List Char) : Option (SignedState × List Char) :=
  match expects "\x7b\"State\":\"".data l with
  | none => none
  | some l1 =>
    match parseStringBody l1 with
    | none => none
    | some (st, l2) =>
      match expects ",\"Sigs\":".data l2 with
      | none => none
      | some l3 =>
        match parseStrArray l3 with
        | none => none
        | some (sigs, l4) =>
          match l4 with
          | '\x7d' :: l5 => some ({ State := String.mk st, Sigs := sigs }, l5)
          | _ => none

/-- The rendering of a JSON array of signed states after its first
element. -/
def encodeSSTail : List SignedState → List Char
  | [] => [']']
  | ss :: t => ',' :: (encodeSignedState ss ++ encodeSSTail t)

/-- A JSON array of signed states, as `json.Marshal` renders
`[]state.SignedState`. -/
def encodeSSArray : List SignedState → List Char
  | [] => ['[', ']']
  | ss :: t => '[' :: (encodeSignedState ss ++ encodeSSTail t)

/-- Parse the elements of a non-empty JSON array of signed states. -/
def parseSSElems : Nat → List Char → Option (List SignedState × List Char)
  | 0, _ => none
  | f + 1, l =>
    match parseSignedState l with
    | some (ss, ',' :: r2) =>
      match parseSSElems f r2 with
      | some (xs, r3) => some (ss :: xs, r3)
      | none => none
    | some (ss, ']' :: r2) => some ([ss], r2)
    | _ => none

/-- Parse a JSON array of signed states. -/
def parseSSArray : List Char → Option (List SignedState × List Char)
  | '[' :: (']' :: l) => some ([], l)
  | '[' :: l => parseSSElems l.length l
  | _ => none

/-- `protocols.Message` (the message envelope, `RELATED_DOC` part of
the source): destination address, objective id, signed states. -/
structure Message where
  To : Address
  ObjectiveId : String
  SignedStates : List SignedState
deriving DecidableEq, Repr

/-- `Message.Serialize`: `json.Marshal` of the `Message` struct —
fields in declaration order, the address text-marshalled as
`0x`-prefixed lowercase hex, the objective id as a JSON string, the
signed states as a JSON array. -/
def Message.Serialize (m : Message) : String :=
  String.mk
    ("\x7b\"To\":\"0x".data
      ++ (addrHex m.To
        ++ ("\",\"ObjectiveId\":\"".data
          ++ (escapeString m.ObjectiveId.data
            ++ ('"' :: (",\"SignedStates\":".data
              ++ (encodeSSArray m.SignedStates ++ ['\x7d'])))))))

/-- Parse one `Message` from the canonical `json.Marshal` rendering. -/
def parseMessage (l : List Char) : Option (Message × List Char) :=
  match expects "\x7b\"To\":\"0x".data l with
  | none => none
  | some l1 =>
    match parseHexBytes 20 l1 with
    | none => none
    | some (toAddr, l2) =>
      match expects "\",\"ObjectiveId\":\"".data l2 with
      | none => none
      | some l3 =>
        match parseStringBody l3 with
        | none => none
        | some (oid, l4) =>
          match expects ",\"SignedStates\":".data l4 with
          | none => none
          | some l5 =>
            match parseSSArray l5 with
            | none => none
            | some (sss, l6) =>
              match l6 with
              | '\x7d' :: l7 =>
                some ({ To := toAddr, ObjectiveId := String.mk oid, SignedStates := sss }, l7)
              | _ => none

/-- `DeserializeMessage`: `json.Unmarshal` into a `Message`, restricted
to the canonical encoding `json.Marshal` produces; the whole input must
be consumed. -/
def DeserializeMessage (s : String) : Option Message :=
  match parseMessage s.data with
  | some (m, []) => some m
  | _ => none

/-- `json.Marshal` of `peerExchangeMessage` (sendPeerInfo, service.go
line 279): the peer id text-marshals to its base58 string, the address
to `0x`-prefixed lowercase hex, `ExpectResponse` to a JSON bool. -/
def serializePeerExchangeMessage (msg : PeerExchangeMessage) : String :=
  String.mk
    ("\x7b\"Id\":\"".data
      ++ (escapeString msg.Id.data
        ++ ('"' :: (",\"Address\":\"0x".data
          ++ (addrHex msg.Address
            ++ ("\",\"ExpectResponse\":".data
              ++ ((if msg.ExpectResponse then "true".data else "false".data)
                ++ ['\x7d'])))))))

/-- Parse a JSON bool. -/
def parseBool : List Char → Option (Bool × List Char)
  | 't' :: ('r' :: ('u' :: ('e' :: l))) => some (true, l)
  | 'f' :: ('a' :: ('l' :: ('s' :: ('e' :: l)))) => some (false, l)
  | _ => none

/-- Parse one `peerExchangeMessage` from the canonical rendering
(json.Unmarshal in receivePeerInfo, service.go line 318); the whole
input must be consumed. -/
def deserializePeerExchangeMessage (s : String) : Option PeerExchangeMessage :=
  match expects "\x7b\"Id\":\"".data s.data with
  | none => none
  | some l1 =>
    match parseStringBody l1 with
    | none => none
    | some (pid, l2) =>
      match expects ",\"Address\":\"0x".data l2 with
      | none => none
      | some l3 =>
        match parseHexBytes 20 l3 with
        | none => none
        | some (addr, l4) =>
          match expects "\",\"ExpectResponse\":".data l4 with
          | none => none
          | some l5 =>
            match parseBool l5 with
            | some (b, ['\x7d']) =>
              some { Id := String.mk pid, Address := addr, ExpectResponse := b }
            | _ => none

/-- A concrete message exercising the escapes: raw newline, quote,
HTML-escaped characters and backslash in the objective id, two signed
states with escaped content. -/
def msgW : Message :=
  { To := addrA
    ObjectiveId := "VirtualFund-0x\n\"<&>\\end"
    SignedStates := [⟨"s1\t", ["a", "b\"c"]⟩, ⟨"", []⟩] }

/-- A concrete peer-exchange handshake record. -/
def pemW : PeerExchangeMessage :=
  { Id := "16Uiu2HAmTest", Address := addrB, ExpectResponse := true }

/- ## Theorems -/

/-- An address already bound keeps its binding across any inbound
peer-exchange stream, and no notification for it is emitted. -/
theorem receivePeerInfo_preserves (selfId : PeerID) (selfAddr : Address)
    (dir : Directory) (r : ReadOutcome) (a : Address) (v : PeerID)
    (h : Directory.load dir a = some v) :
    Directory.load (receivePeerInfo selfId selfAddr dir r).dir a = some v
    ∧ ∀ n ∈ (receivePeerInfo selfId selfAddr dir r).notifications, n.Address ≠ a := by
  cases r with
  | ok msg =>
    by_cases hm : msg.Address = a
    · subst hm
      simp [receivePeerInfo, Directory.loadOrStore, h]
    · cases hl : Directory.load dir msg.Address with
      | some j =>
        constructor
        · simp [receivePeerInfo, Directory.loadOrStore, hl, h]
        · simp [receivePeerInfo, Directory.loadOrStore, hl]
      | none =>
        constructor
        · simp [receivePeerInfo, Directory.loadOrStore, hl, Directory.load, hm, h]
        · intro n hn
          simp [receivePeerInfo, Directory.loadOrStore, hl] at hn
          simp [hn, hm]
  | eof => exact ⟨h, by simp [receivePeerInfo]⟩
  | readErr e => exact ⟨h, by simp [receivePeerInfo]⟩
  | unmarshalErr e => exact ⟨h, by simp [receivePeerInfo]⟩

/-- Once an address is bound, no later stream in a run emits a
notification for it. -/
theorem processPeerInfos_no_notif_of_bound (selfId : PeerID) (selfAddr : Address)
    (rs : List ReadOutcome) :
    ∀ (dir : Directory) (a : Address) (v : PeerID),
      Directory.load dir a = some v →
      (processPeerInfos selfId selfAddr dir rs).2.countP (fun n => decide (n.Address = a)) = 0 := by
  induction rs with
  | nil => intro dir a v h; simp [processPeerInfos]
  | cons r rest ih =>
    intro dir a v h
    have hp := receivePeerInfo_preserves selfId selfAddr dir r a v h
    simp only [processPeerInfos, List.countP_append]
    have h1 : (receivePeerInfo selfId selfAddr dir r).notifications.countP
        (fun n => decide (n.Address = a)) = 0 := by
      rw [List.countP_eq_zero]
      intro n hn
      simpa using hp.2 n hn
    rw [h1, ih _ a v hp.1]

/-- At most one notification per distinct business address is emitted
over any run of inbound peer-exchange streams. -/
theorem processPeerInfos_at_most_one (selfId : PeerID) (selfAddr : Address)
    (rs : List ReadOutcome) :
    ∀ (dir : Directory) (a : Address),
      (processPeerInfos selfId selfAddr dir rs).2.countP (fun n => decide (n.Address = a)) ≤ 1 := by
  induction rs with
  | nil => intro dir a; simp [processPeerInfos]
  | cons r rest ih =>
    intro dir a
    simp only [processPeerInfos, List.countP_append]
    cases r with
    | ok msg =>
      cases hl : Directory.load dir msg.Address with
      | some j =>
        have hn : (receivePeerInfo selfId selfAddr dir (.ok msg)).notifications = [] := by
          simp [receivePeerInfo, Directory.loadOrStore, hl]
        have hd : (receivePeerInfo selfId selfAddr dir (.ok msg)).dir = dir := by
          simp [receivePeerInfo, Directory.loadOrStore, hl]
        rw [hn, hd]
        simpa using ih dir a
      | none =>
        have hn : (receivePeerInfo selfId selfAddr dir (.ok msg)).notifications
            = [⟨msg.Id, msg.Address⟩] := by
          simp [receivePeerInfo, Directory.loadOrStore, hl]
        have hd : (receivePeerInfo selfId selfAddr dir (.ok msg)).dir
            = (msg.Address, msg.Id) :: dir := by
          simp [receivePeerInfo, Directory.loadOrStore, hl]
        rw [hn, hd]
        by_cases hM : msg.Address = a
        · subst hM
          have hz := processPeerInfos_no_notif_of_bound selfId selfAddr rest
            ((msg.Address, msg.Id) :: dir) msg.Address msg.Id (by simp [Directory.load])
          simp [hz]
        · have : ([(⟨msg.Id, msg.Address⟩ : basicPeerInfo)]).countP
              (fun n => decide (n.Address = a)) = 0 := by simp [hM]
          rw [this]
          simpa using ih ((msg.Address, msg.Id) :: dir) a
    | eof =>
      have : receivePeerInfo selfId selfAddr dir .eof
          = { dir := dir, notifications := [], replies := [] } := rfl
      rw [this]
      simpa using ih dir a
    | readErr e =>
      have : receivePeerInfo selfId selfAddr dir (.readErr e)
          = { dir := dir, notifications := [], replies := [] } := rfl
      rw [this]
      simpa using ih dir a
    | unmarshalErr e =>
      have : receivePeerInfo selfId selfAddr dir (.unmarshalErr e)
          = { dir := dir, notifications := [], replies := [] } := rfl
      rw [this]
      simpa using ih dir a

/-- Claim C4 (as stated) is false: when a handshake for an address
already in the Directory reports a different identifier, the entry is
NOT overwritten — `LoadOrStore` keeps the old identifier.  Concretely,
with the Directory binding `addrA ↦ "I"`, receiving a handshake
`{Id := "J", Address := addrA}` leaves the entry at `"I" ≠ "J"`. -/
theorem C4_counterexample :
    Directory.load (receivePeerInfo "Q" addrB [(addrA, "I")]
      (.ok { Id := "J", Address := addrA, ExpectResponse := false })).dir addrA
      = some "I" ∧ "I" ≠ "J" := by decide

/-- Claim C4, amended: if a peer-exchange handshake reports any
identifier for a business address already present in the Directory, the
Directory is left unchanged — the existing entry is kept, not
overwritten — and no new peer-discovered notification is emitted. -/
theorem C4_amended (selfId : PeerID) (selfAddr : Address) (dir : Directory)
    (msg : PeerExchangeMessage) (oldId : PeerID)
    (h : Directory.load dir msg.Address = some oldId) :
    (receivePeerInfo selfId selfAddr dir (.ok msg)).dir = dir
    ∧ Directory.load (receivePeerInfo selfId selfAddr dir (.ok msg)).dir msg.Address = some oldId
    ∧ (receivePeerInfo selfId selfAddr dir (.ok msg)).notifications = [] := by
  refine ⟨?_, ?_, ?_⟩ <;> simp [receivePeerInfo, Directory.loadOrStore, h]

/-- Witness for `C4_amended` at a concrete input. -/
theorem C4_amended_witness :
    (receivePeerInfo "Q" addrB [(addrA, "I")]
        (.ok { Id := "J", Address := addrA, ExpectResponse := false })).dir = [(addrA, "I")]
    ∧ Directory.load (receivePeerInfo "Q" addrB [(addrA, "I")]
        (.ok { Id := "J", Address := addrA, ExpectResponse := false })).dir addrA = some "I"
    ∧ (receivePeerInfo "Q" addrB [(addrA, "I")]
        (.ok { Id := "J", Address := addrA, ExpectResponse := false })).notifications = [] :=
  C4_amended "Q" addrB [(addrA, "I")]
    { Id := "J", Address := addrA, ExpectResponse := false } "I" (by decide)

/-- Claim C5: for an address `a` not yet in the Directory,
`loadOrStore a i` followed by `loadOrStore a j` leaves the entry at `i`
and the second call reports it as already present; and over any run of
inbound handshakes, at most one "peer discovered" notification is
emitted per distinct business address. -/
theorem C5_loadOrStore_first_writer_wins (d : Directory) (a : Address) (i j : PeerID)
    (h : Directory.load d a = none) :
    (Directory.loadOrStore (Directory.loadOrStore d a i).2 a j).1 = (i, true)
    ∧ Directory.load (Directory.loadOrStore (Directory.loadOrStore d a i).2 a j).2 a = some i
    ∧ ∀ (selfId : PeerID) (selfAddr : Address) (dir : Directory)
        (rs : List ReadOutcome) (a2 : Address),
        (processPeerInfos selfId selfAddr dir rs).2.countP
          (fun n => decide (n.Address = a2)) ≤ 1 := by
  refine ⟨?_, ?_, ?_⟩
  · simp [Directory.loadOrStore, Directory.load, h]
  · simp [Directory.loadOrStore, Directory.load, h]
  · intro selfId selfAddr dir rs a2
    exact processPeerInfos_at_most_one selfId selfAddr rs dir a2

/-- Witness for `C5_loadOrStore_first_writer_wins` at a concrete input. -/
theorem C5_witness :
    (Directory.loadOrStore (Directory.loadOrStore [] addrA "I").2 addrA "J").1 = ("I", true)
    ∧ Directory.load (Directory.loadOrStore (Directory.loadOrStore [] addrA "I").2 addrA "J").2 addrA
        = some "I"
    ∧ ∀ (selfId : PeerID) (selfAddr : Address) (dir : Directory)
        (rs : List ReadOutcome) (a2 : Address),
        (processPeerInfos selfId selfAddr dir rs).2.countP
          (fun n => decide (n.Address = a2)) ≤ 1 :=
  C5_loadOrStore_first_writer_wins [] addrA "I" "J" (by decide)

/-- Claim C7: a reply handshake is sent exactly when the incoming
message has `ExpectResponse = true`; every reply carries
`ExpectResponse = false`; and processing such a reply produces no
further reply, so the exchange terminates after at most one round
trip. -/
theorem C7_handshake_terminates (selfId : PeerID) (selfAddr : Address)
    (dir : Directory) (msg : PeerExchangeMessage) :
    (receivePeerInfo selfId selfAddr dir (.ok msg)).replies
      = (if msg.ExpectResponse then [(msg.Id, sendPeerInfo selfId selfAddr false)] else [])
    ∧ (sendPeerInfo selfId selfAddr false).ExpectResponse = false
    ∧ (∀ (selfId2 : PeerID) (selfAddr2 : Address) (dir2 : Directory),
        (receivePeerInfo selfId2 selfAddr2 dir2
          (.ok (sendPeerInfo selfId selfAddr false))).replies = []) := by
  refine ⟨rfl, rfl, ?_⟩
  intro selfId2 selfAddr2 dir2
  unfold receivePeerInfo Directory.loadOrStore sendPeerInfo
  cases hl : Directory.load dir2 selfAddr <;> simp [hl]

/-- Claim C1 names a real bug in the code: with the destination
resolved from the Directory and all `NUM_CONNECT_ATTEMPTS` stream
opens failing, `Send` makes exactly 10 attempts, sleeps after each,
delivers nothing — and then returns `nil` (success) to the caller
instead of the delivery-failure error its own documentation ("It
blocks until the message is sent") and the spec require. -/
theorem C1_send_swallows_delivery_failure :
    (send alwaysFailOpenEnv [(addrA, "P")] addrA).1 = none
    ∧ (send alwaysFailOpenEnv [(addrA, "P")] addrA).2.2.opens = NUM_CONNECT_ATTEMPTS
    ∧ (send alwaysFailOpenEnv [(addrA, "P")] addrA).2.2.sleeps = NUM_CONNECT_ATTEMPTS
    ∧ (send alwaysFailOpenEnv [(addrA, "P")] addrA).2.2.delivered = false := by
  decide

/-- Claim C3 (as stated) is false: with every write failing after a
successful open, `Send` does not consume the retry budget — it reports
the write error after a single attempt. -/
theorem C3_counterexample :
    (send alwaysFailWriteEnv [(addrA, "P")] addrA).1 = some (.mk "write failed")
    ∧ (send alwaysFailWriteEnv [(addrA, "P")] addrA).2.2.opens = 1
    ∧ (1 : Nat) ≠ NUM_CONNECT_ATTEMPTS := by
  decide

/-- Claim C3, amended: a write failure on a successfully opened stream
is returned to the caller immediately, without sleeping and without
consuming further attempts — only stream-open failures consume the
retry budget. -/
theorem C3_write_error_aborts_immediately (env : SendEnv) (dir : Directory)
    (dst : Address) (pid : PeerID) (e : GoErr) (raw : String)
    (hser : env.serialize = .ok raw)
    (hload : Directory.load dir dst = some pid)
    (hopen : env.openStream pid 0 = none)
    (hwrite : env.write pid 0 = some e) :
    (send env dir dst).1 = some e
    ∧ (send env dir dst).2.2.opens = 1
    ∧ (send env dir dst).2.2.sleeps = 0 := by
  have h10 : NUM_CONNECT_ATTEMPTS = 9 + 1 := rfl
  simp [send, hser, hload, h10, sendAttempts, hopen, hwrite]

/-- Witness for `C3_write_error_aborts_immediately` at a concrete
input. -/
theorem C3_amended_witness :
    (send alwaysFailWriteEnv [(addrA, "P")] addrA).1 = some (GoErr.mk "write failed")
    ∧ (send alwaysFailWriteEnv [(addrA, "P")] addrA).2.2.opens = 1
    ∧ (send alwaysFailWriteEnv [(addrA, "P")] addrA).2.2.sleeps = 0 :=
  C3_write_error_aborts_immediately alwaysFailWriteEnv [(addrA, "P")] addrA "P"
    (GoErr.mk "write failed") "raw" rfl (by decide) rfl rfl

/-- When the destination is bound in the Directory, `Send` resolves it
there and does not consult the distributed store. -/
theorem send_directory_hit (env : SendEnv) (dir : Directory) (dst : Address)
    (pid : PeerID) (raw : String)
    (hser : env.serialize = .ok raw) (hload : Directory.load dir dst = some pid) :
    (send env dir dst).2.2.dhtQueried = false
    ∧ (send env dir dst).2.2.resolved = some pid := by
  simp [send, hser, hload]

/-- Claim C8: a destination absent from the Directory whose record
decodes from the distributed store resolves via the store, the
identifier is cached back into the Directory, and a subsequent `Send`
to the same destination resolves from the Directory without querying
the store again. -/
theorem C8_dht_fallback_cached (env env2 : SendEnv) (dir : Directory) (dst : Address)
    (pid : PeerID) (raw raw2 bytes : String) (rec : DhtRecord)
    (hser : env.serialize = .ok raw)
    (hmiss : Directory.load dir dst = none)
    (hget : env.dht.getValue dst = .ok bytes)
    (hun : env.dht.unmarshalRecord bytes = .ok rec)
    (hdec : env.dht.decodePeerId rec.Data.PeerID = .ok pid)
    (hser2 : env2.serialize = .ok raw2) :
    (send env dir dst).2.2.dhtQueried = true
    ∧ (send env dir dst).2.2.resolved = some pid
    ∧ Directory.load (send env dir dst).2.1 dst = some pid
    ∧ (send env2 (send env dir dst).2.1 dst).2.2.dhtQueried = false
    ∧ (send env2 (send env dir dst).2.1 dst).2.2.resolved = some pid := by
  have hdht : getPeerIdFromDht env.dht dir dst = (.ok pid, Directory.store dir dst pid) := by
    simp [getPeerIdFromDht, hget, hun, hdec]
  have hfirst : (send env dir dst).2.1 = Directory.store dir dst pid := by
    simp [send, hser, hmiss, hdht]
  have hload2 : Directory.load (send env dir dst).2.1 dst = some pid := by
    rw [hfirst]; simp [Directory.store, Directory.load]
  refine ⟨by simp [send, hser, hmiss, hdht], by simp [send, hser, hmiss, hdht], hload2,
    (send_directory_hit env2 _ dst pid raw2 hser2 hload2).1,
    (send_directory_hit env2 _ dst pid raw2 hser2 hload2).2⟩

/-- Witness for `C8_dht_fallback_cached` at a concrete input. -/
theorem C8_witness :
    (send dhtHitEnv [] addrA).2.2.dhtQueried = true
    ∧ (send dhtHitEnv [] addrA).2.2.resolved = some "P"
    ∧ Directory.load (send dhtHitEnv [] addrA).2.1 addrA = some "P"
    ∧ (send dhtHitEnv (send dhtHitEnv [] addrA).2.1 addrA).2.2.dhtQueried = false
    ∧ (send dhtHitEnv (send dhtHitEnv [] addrA).2.1 addrA).2.2.resolved = some "P" :=
  C8_dht_fallback_cached dhtHitEnv dhtHitEnv [] addrA "P" "raw" "raw" "recbytes"
    { Data := { SCAddr := addrA, PeerID := "P", Timestamp := 0 }, Signature := "sig" }
    rfl rfl rfl rfl rfl rfl

/-- Claim C2 (as stated) is false: with an empty boot-peer list,
`setupDht` completes successfully without ever publishing this node's
record — `addScaddrDhtRecord` is called only inside the non-empty
boot-peer branch. -/
theorem C2_counterexample :
    DhtSetupStep.publishOwnRecord ∉ setupDht [] := by decide

/-- Claim C2, amended: the node publishes its own signed record —
carrying its own address and identifier, signature over the serialized
data — after the quorum wait, and only when a non-empty boot-peer list
is configured; with an empty boot-peer list, startup completes without
publishing. -/
theorem C2_publish_only_with_boot_peers (bootPeers : List String)
    (hne : bootPeers ≠ []) :
    setupDht bootPeers
      = [.newDht, .installConnectedCallback, .addBootPeers bootPeers,
         .quorumWait bootPeers.length, .publishOwnRecord, .bootstrapDht]
    ∧ setupDht [] = [.newDht, .installConnectedCallback, .bootstrapDht]
    ∧ ∀ (me : Address) (selfId : PeerID) (now : Int) (sign : String → String)
        (marshalData : DhtData → String),
        (addScaddrDhtRecord me selfId now sign marshalData).key = me
        ∧ (addScaddrDhtRecord me selfId now sign marshalData).record.Data.SCAddr = me
        ∧ (addScaddrDhtRecord me selfId now sign marshalData).record.Data.PeerID = selfId
        ∧ (addScaddrDhtRecord me selfId now sign marshalData).record.Signature
            = sign (marshalData { SCAddr := me, PeerID := selfId, Timestamp := now }) := by
  refine ⟨?_, rfl, fun me selfId now sign marshalData => ⟨rfl, rfl, rfl, rfl⟩⟩
  cases bootPeers with
  | nil => exact absurd rfl hne
  | cons p rest => simp [setupDht]

/-- Witness for `C2_publish_only_with_boot_peers` at a concrete
input. -/
theorem C2_witness :
    setupDht ["/ip4/b"]
      = [.newDht, .installConnectedCallback, .addBootPeers ["/ip4/b"],
         .quorumWait 1, .publishOwnRecord, .bootstrapDht]
    ∧ setupDht [] = [.newDht, .installConnectedCallback, .bootstrapDht]
    ∧ ∀ (me : Address) (selfId : PeerID) (now : Int) (sign : String → String)
        (marshalData : DhtData → String),
        (addScaddrDhtRecord me selfId now sign marshalData).key = me
        ∧ (addScaddrDhtRecord me selfId now sign marshalData).record.Data.SCAddr = me
        ∧ (addScaddrDhtRecord me selfId now sign marshalData).record.Data.PeerID = selfId
        ∧ (addScaddrDhtRecord me selfId now sign marshalData).record.Signature
            = sign (marshalData { SCAddr := me, PeerID := selfId, Timestamp := now }) :=
  C2_publish_only_with_boot_peers ["/ip4/b"] (by simp)

/-- Claim C6 (as stated) is false: after successfully dialing the boot
peer, the handshake sent to it carries `ExpectResponse = false`, not
`true` — no call site of `sendPeerInfo` in this code passes `true`. -/
theorem C6_counterexample :
    (bootPeerHandshakes "Q" addrB oneBootPeerEnv ["/ip4/b"]).map
        (fun h => (h.1, h.2.ExpectResponse)) = [("B", false)]
    ∧ ¬ ∃ h ∈ bootPeerHandshakes "Q" addrB oneBootPeerEnv ["/ip4/b"],
        h.2.ExpectResponse = true := by
  decide

/-- Claim C6, amended: a handshake with `ExpectResponse = false` is
sent (via the connected notification) to each successfully dialed boot
peer, and every handshake so triggered carries
`ExpectResponse = false`. -/
theorem C6_handshake_per_dialed_boot_peer (selfId : PeerID) (selfAddr : Address)
    (env : BootPeerEnv) (peers : List String) (p : String) (pid : PeerID)
    (hp : p ∈ peers) (hd : addBootPeer env p = .ok pid) :
    (pid, sendPeerInfo selfId selfAddr false) ∈ bootPeerHandshakes selfId selfAddr env peers
    ∧ ∀ h ∈ bootPeerHandshakes selfId selfAddr env peers, h.2.ExpectResponse = false := by
  constructor
  · have hmem : pid ∈ addBootPeers env peers := by
      simp only [addBootPeers, List.mem_filterMap]
      exact ⟨p, hp, by simp [hd, Except.toOption]⟩
    exact List.mem_map.mpr ⟨pid, hmem, rfl⟩
  · intro h hh
    rcases List.mem_map.mp hh with ⟨remote, _, hEq⟩
    simp [← hEq, sendPeerInfo]

/-- Witness for `C6_handshake_per_dialed_boot_peer` at a concrete
input. -/
theorem C6_witness :
    ("B", sendPeerInfo "Q" addrB false)
        ∈ bootPeerHandshakes "Q" addrB oneBootPeerEnv ["/ip4/b"]
    ∧ ∀ h ∈ bootPeerHandshakes "Q" addrB oneBootPeerEnv ["/ip4/b"],
        h.2.ExpectResponse = false :=
  C6_handshake_per_dialed_boot_peer "Q" addrB oneBootPeerEnv ["/ip4/b"] "/ip4/b" "B"
    (by decide) rfl

/-- Claim C10: a "peer found" event with an empty address list makes
`HandlePeerFound` panic (index out of range on `pi.Addrs[0]`), and the
handler is total exactly when every discovered peer carries at least
one address. -/
theorem C10_handlePeerFound_panics_on_empty_addrs :
    HandlePeerFound "Q" addrB { Id := "B", Addrs := [] } = .error .indexOutOfRange
    ∧ ∀ (selfId : PeerID) (selfAddr : Address) (pid : PeerID) (a : String)
        (rest : List String),
        HandlePeerFound selfId selfAddr { Id := pid, Addrs := a :: rest }
          = .ok { addedAddr := (pid, a)
                  handshake := (pid, sendPeerInfo selfId selfAddr false) } :=
  ⟨rfl, fun _ _ _ _ _ => rfl⟩

theorem hexDigitVal_hexDigitChar : ∀ k : Fin 16, hexDigitVal (hexDigitChar k.val) = some k.val := by
  decide

theorem hexDigitChar_ne_delimiter : ∀ k : Fin 16, hexDigitChar k.val ≠ DELIMITER := by
  decide

theorem expects_append (lit : List Char) : ∀ rest : List Char,
    expects lit (lit ++ rest) = some rest := by
  induction lit with
  | nil => intro rest; rfl
  | cons e es ih => intro rest; simp [expects, ih]

theorem expects_length (lit : List Char) : ∀ l r : List Char,
    expects lit l = some r → r.length + lit.length = l.length := by
  induction lit with
  | nil => intro l r h; simp [expects] at h; simp [h]
  | cons e es ih =>
    intro l r h
    cases l with
    | nil => simp [expects] at h
    | cons c l2 =>
      by_cases hc : c = e
      · simp [expects, hc] at h
        have := ih l2 r h
        simp [List.length_cons]
        omega
      · simp [expects, hc] at h

theorem parseStringBody_length : ∀ (l : List Char) s r,
    parseStringBody l = some (s, r) → r.length < l.length := by
  intro l
  induction l using parseStringBody.induct <;> intro s r h <;>
    rw [parseStringBody.eq_def] at h <;> simp_all [Option.map_eq_some']
  all_goals first
    | omega
    | (obtain ⟨rfl, rfl⟩ := h)
    | (obtain ⟨a, ha, hcons⟩ := h
       rename_i ih
       have := ih a r ha
       try simp only [List.length_cons] at this ⊢
       omega)

theorem parseStringBody_escape (s : List Char) : ∀ rest : List Char,
    parseStringBody (escapeString s ++ ('"' :: rest)) = some (s, rest) := by
  induction s with
  | nil =>
    intro rest
    simp only [escapeString, List.nil_append]
    rw [parseStringBody.eq_def]
    simp
  | cons c tail ih =>
    intro rest
    simp only [escapeString, List.append_assoc]
    by_cases h1 : c = '"'
    · subst h1
      rw [show escapeChar '"' = ['\\', '"'] from rfl]
      simp only [List.cons_append, List.nil_append]
      rw [parseStringBody.eq_def]
      simp [ih]
    · by_cases h2 : c = '\\'
      · subst h2
        rw [show escapeChar '\\' = ['\\', '\\'] from rfl]
        simp only [List.cons_append, List.nil_append]
        rw [parseStringBody.eq_def]
        simp [ih]
      · by_cases h3 : c = '\n'
        · subst h3
          rw [show escapeChar '\n' = ['\\', 'n'] from rfl]
          simp only [List.cons_append, List.nil_append]
          rw [parseStringBody.eq_def]
          simp [ih]
        · by_cases h4 : c = '\r'
          · subst h4
            rw [show escapeChar '\r' = ['\\', 'r'] from rfl]
            simp only [List.cons_append, List.nil_append]
            rw [parseStringBody.eq_def]
            simp [ih]
          · by_cases h5 : c = '\t'
            · subst h5
              rw [show escapeChar '\t' = ['\\', 't'] from rfl]
              simp only [List.cons_append, List.nil_append]
              rw [parseStringBody.eq_def]
              simp [ih]
            · by_cases h6 : c.toNat < 32 ∨ c = '<' ∨ c = '>' ∨ c = '&'
                  ∨ c.toNat = 8232 ∨ c.toNat = 8233
              · have hlt : c.toNat < 65536 := by
                  rcases h6 with h | h | h | h | h | h
                  · omega
                  · subst h; decide
                  · subst h; decide
                  · subst h; decide
                  · omega
                  · omega
                have e1 : hexDigitVal (hexDigitChar (c.toNat / 4096 % 16))
                    = some (c.toNat / 4096 % 16) :=
                  hexDigitVal_hexDigitChar ⟨_, Nat.mod_lt _ (by omega)⟩
                have e2 : hexDigitVal (hexDigitChar (c.toNat / 256 % 16))
                    = some (c.toNat / 256 % 16) :=
                  hexDigitVal_hexDigitChar ⟨_, Nat.mod_lt _ (by omega)⟩
                have e3 : hexDigitVal (hexDigitChar (c.toNat / 16 % 16))
                    = some (c.toNat / 16 % 16) :=
                  hexDigitVal_hexDigitChar ⟨_, Nat.mod_lt _ (by omega)⟩
                have e4 : hexDigitVal (hexDigitChar (c.toNat % 16))
                    = some (c.toNat % 16) :=
                  hexDigitVal_hexDigitChar ⟨_, Nat.mod_lt _ (by omega)⟩
                have hchar : Char.ofNat (((c.toNat / 4096 % 16 * 16 + c.toNat / 256 % 16) * 16
                    + c.toNat / 16 % 16) * 16 + c.toNat % 16) = c := by
                  have harith : ((c.toNat / 4096 % 16 * 16 + c.toNat / 256 % 16) * 16
                      + c.toNat / 16 % 16) * 16 + c.toNat % 16 = c.toNat := by
                    omega
                  rw [harith, Char.ofNat_toNat]
                have hesc : escapeChar c = '\\' :: ('u' :: hex4 c.toNat) := by
                  simp only [escapeChar, if_neg h1, if_neg h2, if_neg h3, if_neg h4, if_neg h5,
                    if_pos h6]
                rw [hesc]
                simp only [hex4, List.cons_append, List.nil_append]
                rw [parseStringBody.eq_def]
                simp [e1, e2, e3, e4, hchar, ih]
              · have hne : escapeChar c = [c] := by
                  simp only [escapeChar, if_neg h1, if_neg h2, if_neg h3, if_neg h4, if_neg h5,
                    if_neg h6]
                rw [hne]
                simp only [List.cons_append, List.nil_append]
                rw [parseStringBody.eq_def]
                simp [h1, h2, ih]

theorem parseHexBytes_addrHex (a : Address) : ∀ rest : List Char,
    parseHexBytes a.length (addrHex a ++ rest) = some (a, rest) := by
  induction a with
  | nil => intro rest; rfl
  | cons b bs ih =>
    intro rest
    have hb := b.isLt
    have e1 : hexDigitVal (hexDigitChar (b.val / 16)) = some (b.val / 16) :=
      hexDigitVal_hexDigitChar ⟨_, by omega⟩
    have e2 : hexDigitVal (hexDigitChar (b.val % 16)) = some (b.val % 16) :=
      hexDigitVal_hexDigitChar ⟨_, Nat.mod_lt _ (by omega)⟩
    have hcond : b.val / 16 * 16 + b.val % 16 < 256 := by omega
    have hfin : (⟨b.val / 16 * 16 + b.val % 16, hcond⟩ : Fin 256) = b := by
      apply Fin.ext
      simp only [Fin.val_mk]
      omega
    simp only [addrHex, byteHex, List.length_cons, List.cons_append, List.nil_append]
    rw [parseHexBytes.eq_def]
    simp [e1, e2, hcond, hfin, ih]

theorem string_mk_data (s : String) : String.mk s.data = s := rfl

theorem parseStrElems_encode (t : List String) : ∀ (fuel : Nat) (s : String)
    (rest : List Char), t.length < fuel →
    parseStrElems fuel (quoted s ++ (encodeStrTail t ++ rest)) = some (s :: t, rest) := by
  induction t with
  | nil =>
    intro fuel s rest hf
    cases fuel with
    | zero => omega
    | succ f =>
      simp only [quoted, encodeStrTail, List.cons_append, List.append_assoc,
        List.singleton_append, List.nil_append]
      simp only [parseStrElems, parseStringBody_escape]
  | cons s2 t2 ih =>
    intro fuel s rest hf
    cases fuel with
    | zero => omega
    | succ f =>
      simp only [quoted, encodeStrTail, List.cons_append, List.append_assoc,
        List.singleton_append, List.nil_append]
      simp only [parseStrElems, parseStringBody_escape]
      have := ih f s2 rest (by simpa using Nat.lt_of_succ_lt_succ hf)
      simp only [quoted, List.cons_append, List.append_assoc, List.nil_append] at this
      rw [this]

theorem quoted_length_ge (s : String) : 2 ≤ (quoted s).length := by
  simp only [quoted, List.length_cons, List.length_append, List.length_singleton]
  omega

theorem encodeStrTail_length_gt (t : List String) : t.length < (encodeStrTail t).length := by
  induction t with
  | nil => simp [encodeStrTail]
  | cons s t2 ih =>
    have := quoted_length_ge s
    simp only [encodeStrTail, List.length_cons, List.length_append]
    omega

theorem parseStrArray_encode (xs : List String) (rest : List Char) :
    parseStrArray (encodeStrArray xs ++ rest) = some (xs, rest) := by
  cases xs with
  | nil => rfl
  | cons s t =>
    simp only [encodeStrArray, quoted, List.cons_append, List.append_assoc,
      List.singleton_append]
    rw [parseStrArray.eq_def]
    have hfuel : t.length <
        ('"' :: (escapeString s.data ++ ('"' :: (encodeStrTail t ++ rest)))).length := by
      have h1 := encodeStrTail_length_gt t
      simp only [List.length_cons, List.length_append]
      omega
    have := parseStrElems_encode t
      ('"' :: (escapeString s.data ++ ('"' :: (encodeStrTail t ++ rest)))).length s rest hfuel
    simp only [quoted, List.cons_append, List.append_assoc, List.singleton_append] at this
    exact this

theorem parseSignedState_encode (ss : SignedState) (rest : List Char) :
    parseSignedState (encodeSignedState ss ++ rest) = some (ss, rest) := by
  have hshape : encodeSignedState ss ++ rest
      = "\x7b\"State\":\"".data
        ++ (escapeString ss.State.data
          ++ ('"' :: (",\"Sigs\":".data
            ++ (encodeStrArray ss.Sigs ++ ('\x7d' :: rest))))) := by
    simp [encodeSignedState, List.append_assoc]
  rw [hshape, parseSignedState.eq_def]
  simp only [expects_append, parseStringBody_escape, parseStrArray_encode]

theorem parseSSElems_encode (t : List SignedState) : ∀ (fuel : Nat) (ss : SignedState)
    (rest : List Char), t.length < fuel →
    parseSSElems fuel (encodeSignedState ss ++ (encodeSSTail t ++ rest))
      = some (ss :: t, rest) := by
  induction t with
  | nil =>
    intro fuel ss rest hf
    cases fuel with
    | zero => omega
    | succ f =>
      have h1 := parseSignedState_encode ss (encodeSSTail [] ++ rest)
      simp only [encodeSSTail, List.singleton_append, List.append_assoc] at h1
      simp only [parseSSElems, encodeSSTail, List.singleton_append, List.append_assoc, h1]
  | cons ss2 t2 ih =>
    intro fuel ss rest hf
    cases fuel with
    | zero => omega
    | succ f =>
      have h1 := parseSignedState_encode ss (encodeSSTail (ss2 :: t2) ++ rest)
      simp only [encodeSSTail, List.cons_append, List.append_assoc] at h1
      simp only [parseSSElems, encodeSSTail, List.cons_append, List.append_assoc, h1]
      have := ih f ss2 rest (by simpa using Nat.lt_of_succ_lt_succ hf)
      simp only [List.append_assoc] at this
      rw [this]

theorem encodeSignedState_length_pos (ss : SignedState) : 0 < (encodeSignedState ss).length := by
  simp only [encodeSignedState, List.length_append, List.length_cons, String.length_data]
  omega

theorem encodeSSTail_length_gt (t : List SignedState) : t.length < (encodeSSTail t).length := by
  induction t with
  | nil => simp [encodeSSTail]
  | cons ss t2 ih =>
    have := encodeSignedState_length_pos ss
    simp only [encodeSSTail, List.length_cons, List.length_append]
    omega

theorem parseSSArray_encode (xs : List SignedState) (rest : List Char) :
    parseSSArray (encodeSSArray xs ++ rest) = some (xs, rest) := by
  cases xs with
  | nil => rfl
  | cons ss t =>
    simp only [encodeSSArray, List.cons_append, List.append_assoc]
    rw [parseSSArray.eq_def]
    have hfuel : t.length < (encodeSignedState ss ++ (encodeSSTail t ++ rest)).length := by
      have h1 := encodeSSTail_length_gt t
      simp only [List.length_append]
      omega
    have := parseSSElems_encode t
      (encodeSignedState ss ++ (encodeSSTail t ++ rest)).length ss rest hfuel
    exact this

theorem parseMessage_encode (m : Message) (hm : m.To.length = 20) (rest : List Char) :
    parseMessage ((Message.Serialize m).data ++ rest) = some (m, rest) := by
  have hshape : (Message.Serialize m).data ++ rest
      = "\x7b\"To\":\"0x".data
        ++ (addrHex m.To
          ++ ("\",\"ObjectiveId\":\"".data
            ++ (escapeString m.ObjectiveId.data
              ++ ('"' :: (",\"SignedStates\":".data
                ++ (encodeSSArray m.SignedStates ++ ('\x7d' :: rest))))))) := by
    simp [Message.Serialize, List.append_assoc]
  have hhex : parseHexBytes 20
      (addrHex m.To
        ++ ("\",\"ObjectiveId\":\"".data
          ++ (escapeString m.ObjectiveId.data
            ++ ('"' :: (",\"SignedStates\":".data
              ++ (encodeSSArray m.SignedStates ++ ('\x7d' :: rest)))))))
      = some (m.To,
          "\",\"ObjectiveId\":\"".data
            ++ (escapeString m.ObjectiveId.data
              ++ ('"' :: (",\"SignedStates\":".data
                ++ (encodeSSArray m.SignedStates ++ ('\x7d' :: rest)))))) := by
    rw [← hm]
    exact parseHexBytes_addrHex m.To _
  rw [hshape, parseMessage.eq_def]
  simp only [expects_append, hhex, parseStringBody_escape, parseSSArray_encode]

theorem deserialize_serialize (m : Message) (hm : m.To.length = 20) :
    DeserializeMessage (Message.Serialize m) = some m := by
  unfold DeserializeMessage
  have := parseMessage_encode m hm []
  simp only [List.append_nil] at this
  rw [this]

theorem parseBool_encode (b : Bool) (rest : List Char) :
    parseBool ((if b then "true".data else "false".data) ++ rest) = some (b, rest) := by
  cases b <;> rfl

theorem deserialize_serialize_pem (pm : PeerExchangeMessage) (hpm : pm.Address.length = 20) :
    deserializePeerExchangeMessage (serializePeerExchangeMessage pm) = some pm := by
  obtain ⟨pid, paddr, pER⟩ := pm
  have hlen : paddr.length = 20 := hpm
  have hshape : (serializePeerExchangeMessage ⟨pid, paddr, pER⟩).data
      = "\x7b\"Id\":\"".data
        ++ (escapeString pid.data
          ++ ('"' :: (",\"Address\":\"0x".data
            ++ (addrHex paddr
              ++ ("\",\"ExpectResponse\":".data
                ++ ((if pER then "true".data else "false".data)
                  ++ ['\x7d'])))))) := by
    simp [serializePeerExchangeMessage]
  have hhex : parseHexBytes 20
      (addrHex paddr
        ++ ("\",\"ExpectResponse\":".data
          ++ ((if pER then "true".data else "false".data) ++ ['\x7d'])))
      = some (paddr,
          "\",\"ExpectResponse\":".data
            ++ ((if pER then "true".data else "false".data) ++ ['\x7d'])) := by
    rw [← hlen]
    exact parseHexBytes_addrHex paddr _
  rw [deserializePeerExchangeMessage.eq_def, hshape]
  simp only [expects_append, parseStringBody_escape, hhex]
  cases pER <;> rfl

theorem delim_not_mem_hex4 (n : Nat) : DELIMITER ∉ hex4 n := by
  intro h
  simp only [hex4, List.mem_cons, List.not_mem_nil, or_false] at h
  rcases h with h | h | h | h
  · exact hexDigitChar_ne_delimiter ⟨n / 4096 % 16, by omega⟩ h.symm
  · exact hexDigitChar_ne_delimiter ⟨n / 256 % 16, by omega⟩ h.symm
  · exact hexDigitChar_ne_delimiter ⟨n / 16 % 16, by omega⟩ h.symm
  · exact hexDigitChar_ne_delimiter ⟨n % 16, by omega⟩ h.symm

theorem delim_not_mem_escapeChar (c : Char) : DELIMITER ∉ escapeChar c := by
  unfold escapeChar
  split_ifs with h1 h2 h3 h4 h5 h6
  · decide
  · decide
  · decide
  · decide
  · decide
  · intro hmem
    simp only [List.mem_cons] at hmem
    rcases hmem with h | h | h
    · exact absurd h (by decide)
    · exact absurd h (by decide)
    · exact delim_not_mem_hex4 c.toNat h
  · intro hmem
    simp only [List.mem_singleton] at hmem
    exact h3 hmem.symm

theorem delim_not_mem_escapeString (s : List Char) : DELIMITER ∉ escapeString s := by
  induction s with
  | nil => simp [escapeString]
  | cons c t ih =>
    intro h
    rcases List.mem_append.mp h with h2 | h2
    · exact delim_not_mem_escapeChar c h2
    · exact ih h2

theorem delim_not_mem_byteHex (b : Fin 256) : DELIMITER ∉ byteHex b := by
  intro h
  have hb := b.isLt
  simp only [byteHex, List.mem_cons, List.not_mem_nil, or_false] at h
  rcases h with h | h
  · exact hexDigitChar_ne_delimiter ⟨b.val / 16, by omega⟩ h.symm
  · exact hexDigitChar_ne_delimiter ⟨b.val % 16, by omega⟩ h.symm

theorem delim_not_mem_addrHex (a : Address) : DELIMITER ∉ addrHex a := by
  induction a with
  | nil => simp [addrHex]
  | cons b bs ih =>
    intro h
    rcases List.mem_append.mp h with h2 | h2
    · exact delim_not_mem_byteHex b h2
    · exact ih h2

theorem delim_not_mem_quoted (s : String) : DELIMITER ∉ quoted s := by
  intro h
  simp only [quoted, List.mem_cons] at h
  rcases h with h | h
  · exact absurd h (by decide)
  · rcases List.mem_append.mp h with h2 | h2
    · exact delim_not_mem_escapeString s.data h2
    · exact absurd h2 (by decide)

theorem delim_not_mem_encodeStrTail (t : List String) : DELIMITER ∉ encodeStrTail t := by
  induction t with
  | nil => decide
  | cons s t2 ih =>
    intro h
    simp only [encodeStrTail, List.mem_cons] at h
    rcases h with h | h
    · exact absurd h (by decide)
    · rcases List.mem_append.mp h with h2 | h2
      · exact delim_not_mem_quoted s h2
      · exact ih h2

theorem delim_not_mem_encodeStrArray (xs : List String) : DELIMITER ∉ encodeStrArray xs := by
  cases xs with
  | nil => decide
  | cons s t =>
    intro h
    simp only [encodeStrArray, List.mem_cons] at h
    rcases h with h | h
    · exact absurd h (by decide)
    · rcases List.mem_append.mp h with h2 | h2
      · exact delim_not_mem_quoted s h2
      · exact delim_not_mem_encodeStrTail t h2

theorem delim_not_mem_encodeSignedState (ss : SignedState) :
    DELIMITER ∉ encodeSignedState ss := by
  intro h
  simp only [encodeSignedState] at h
  rcases List.mem_append.mp h with h2 | h2
  · exact absurd h2 (by decide)
  · rcases List.mem_append.mp h2 with h3 | h3
    · exact delim_not_mem_escapeString _ h3
    · simp only [List.mem_cons] at h3
      rcases h3 with h4 | h4
      · exact absurd h4 (by decide)
      · rcases List.mem_append.mp h4 with h5 | h5
        · exact absurd h5 (by decide)
        · rcases List.mem_append.mp h5 with h6 | h6
          · exact delim_not_mem_encodeStrArray _ h6
          · exact absurd h6 (by decide)

theorem delim_not_mem_encodeSSTail (t : List SignedState) : DELIMITER ∉ encodeSSTail t := by
  induction t with
  | nil => decide
  | cons ss t2 ih =>
    intro h
    simp only [encodeSSTail, List.mem_cons] at h
    rcases h with h | h
    · exact absurd h (by decide)
    · rcases List.mem_append.mp h with h2 | h2
      · exact delim_not_mem_encodeSignedState ss h2
      · exact ih h2

theorem delim_not_mem_encodeSSArray (xs : List SignedState) : DELIMITER ∉ encodeSSArray xs := by
  cases xs with
  | nil => decide
  | cons ss t =>
    intro h
    simp only [encodeSSArray, List.mem_cons] at h
    rcases h with h | h
    · exact absurd h (by decide)
    · rcases List.mem_append.mp h with h2 | h2
      · exact delim_not_mem_encodeSignedState ss h2
      · exact delim_not_mem_encodeSSTail t h2

theorem delim_not_mem_serialize (m : Message) : DELIMITER ∉ (Message.Serialize m).data := by
  intro h
  simp only [Message.Serialize] at h
  rcases List.mem_append.mp h with h2 | h2
  · exact absurd h2 (by decide)
  · rcases List.mem_append.mp h2 with h3 | h3
    · exact delim_not_mem_addrHex _ h3
    · rcases List.mem_append.mp h3 with h4 | h4
      · exact absurd h4 (by decide)
      · rcases List.mem_append.mp h4 with h5 | h5
        · exact delim_not_mem_escapeString _ h5
        · simp only [List.mem_cons] at h5
          rcases h5 with h6 | h6
          · exact absurd h6 (by decide)
          · rcases List.mem_append.mp h6 with h7 | h7
            · exact absurd h7 (by decide)
            · rcases List.mem_append.mp h7 with h8 | h8
              · exact delim_not_mem_encodeSSArray _ h8
              · exact absurd h8 (by decide)

theorem delim_not_mem_serialize_pem (pm : PeerExchangeMessage) :
    DELIMITER ∉ (serializePeerExchangeMessage pm).data := by
  intro h
  simp only [serializePeerExchangeMessage] at h
  rcases List.mem_append.mp h with h2 | h2
  · exact absurd h2 (by decide)
  · rcases List.mem_append.mp h2 with h3 | h3
    · exact delim_not_mem_escapeString _ h3
    · simp only [List.mem_cons] at h3
      rcases h3 with h4 | h4
      · exact absurd h4 (by decide)
      · rcases List.mem_append.mp h4 with h5 | h5
        · exact absurd h5 (by decide)
        · rcases List.mem_append.mp h5 with h6 | h6
          · exact delim_not_mem_addrHex _ h6
          · rcases List.mem_append.mp h6 with h7 | h7
            · exact absurd h7 (by decide)
            · rcases List.mem_append.mp h7 with h8 | h8
              · cases hb : pm.ExpectResponse <;> rw [hb] at h8 <;> exact absurd h8 (by decide)
              · exact absurd h8 (by decide)

/-- Claim C9: serializing a valid `protocols.Message` (its destination
a 20-byte address) and then deserializing yields the same message, and
likewise for the `peerExchangeMessage` handshake record; in both cases
the serialized bytes never contain the framing delimiter byte
`'\n'`. -/
theorem C9_roundtrip_and_no_delimiter (m : Message) (pm : PeerExchangeMessage)
    (hm : m.To.length = 20) (hpm : pm.Address.length = 20) :
    DeserializeMessage (Message.Serialize m) = some m
    ∧ DELIMITER ∉ (Message.Serialize m).data
    ∧ deserializePeerExchangeMessage (serializePeerExchangeMessage pm) = some pm
    ∧ DELIMITER ∉ (serializePeerExchangeMessage pm).data :=
  ⟨deserialize_serialize m hm, delim_not_mem_serialize m,
   deserialize_serialize_pem pm hpm, delim_not_mem_serialize_pem pm⟩

/-- Witness for `C9_roundtrip_and_no_delimiter` at a concrete input. -/
theorem C9_witness :
    DeserializeMessage (Message.Serialize msgW) = some msgW
    ∧ DELIMITER ∉ (Message.Serialize msgW).data
    ∧ deserializePeerExchangeMessage (serializePeerExchangeMessage pemW) = some pemW
    ∧ DELIMITER ∉ (serializePeerExchangeMessage pemW).data :=
  C9_roundtrip_and_no_delimiter msgW pemW (by decide) (by decide)

end P2PMS
